import Mathlib

/-
Verification of the LumeDB embedded JSON document store (src/index.js).

The in-memory document is the JSON tree held in `this.data`; file contents
are abstracted at the JSON.parse boundary: a file on disk is either absent,
or holds bytes that parse to some JSON value, or holds bytes that JSON.parse
rejects.  Serialization formatting (the `readable` flag) changes bytes only,
never the parsed value, so it does not appear in the abstraction.
-/

set_option autoImplicit false

namespace LumeDB

/-- A JSON value: the tagged union stored in the database document.
Numbers are modelled as integers (the claims only involve integral numbers). -/
inductive Value where
  | vnull
  | vbool (b : Bool)
  | vnum (n : Int)
  | vstr (s : String)
  | arr (elems : List Value)
  | obj (fields : List (String × Value))

/-- First-match lookup in an association list of object fields
(JS object property read on an own key). -/
def lookupField : List (String × Value) → String → Option Value
  | [], _ => none
  | (k, v) :: tl, key => if k = key then some v else lookupField tl key

/-- JS object property write: replaces the value of an existing key in place
(keeping its insertion position) or appends a fresh key at the end. -/
def setField : List (String × Value) → String → Value → List (String × Value)
  | [], key, v => [(key, v)]
  | (k, w) :: tl, key, v =>
      if k = key then (key, v) :: tl else (k, w) :: setField tl key v

/-- JS `delete o[key]` on an object: removes the key if present. -/
def removeField : List (String × Value) → String → List (String × Value)
  | [], _ => []
  | (k, w) :: tl, key => if k = key then tl else (k, w) :: removeField tl key

/-- A string that is a canonical array index, as JS defines it for arrays:
the decimal representation of a natural number with no leading zeros. -/
def canonIdx (k : String) : Option Nat :=
  match k.toNat? with
  | some n => if toString n = k then some n else none
  | none => none

/-- JS truthiness of a JSON value: null, false, 0 and the empty string are
falsy; objects and arrays are always truthy. -/
def truthy : Value → Bool
  | .vnull => false
  | .vbool b => b
  | .vnum n => n != 0
  | .vstr s => s ≠ ""
  | _ => true

/-- JS property read `current[key]` restricted to the JSON data model:
own fields of objects, canonical indices and `length` of arrays.  Primitive
values have no own data properties, so the read yields undefined (`none`). -/
def getProp : Value → String → Option Value
  | .obj m, key => lookupField m key
  | .arr l, key =>
      if key = "length" then some (.vnum l.length)
      else
        match canonIdx key with
        | some n => l.get? n
        | none => none
  | _, _ => none

/-- Write-back of a mutation performed through the reference `current[key]`:
the tree position the reference denotes is replaced by the new child.  On an
array, only a canonical index position can change; `length` and other keys
denote values that the mutation cannot have altered. -/
def setChild : Value → String → Value → Value
  | .obj m, key, c => .obj (setField m key c)
  | .arr l, key, c =>
      if key = "length" then .arr l
      else
        match canonIdx key with
        | some n => .arr (l.set n c)
        | none => .arr l
  | v, _, _ => v

/-- JS `delete target[key]` in sloppy mode for truthy targets: removes an
object field; on an array, deleting an in-range index leaves a hole, which
serializes (and, for this document model, reads back) as null; deleting
`length` or a non-index key is silently ignored, as is deleting anything on
a boxed primitive. -/
def deleteProp : Value → String → Value
  | .obj m, key => .obj (removeField m key)
  | .arr l, key =>
      if key = "length" then .arr l
      else
        match canonIdx key with
        | some n => .arr (l.set n .vnull)
        | none => .arr l
  | v, _ => v

/-- Number of own enumerable keys, as Object.keys reports it: object fields,
array indices, string characters; primitives have none; null throws. -/
def jsKeysCount : Value → Except String Nat
  | .vnull => .error "TypeError"
  | .obj m => .ok m.length
  | .arr l => .ok l.length
  | .vstr s => .ok s.length
  | _ => .ok 0

/-- Whether a value is a Map (a JSON object). -/
def isMap : Value → Bool
  | .obj _ => true
  | _ => false

/-- Array.isArray. -/
def isArray : Value → Bool
  | .arr _ => true
  | _ => false

/-- Whether a value is a non-null primitive (number, string or boolean):
sloppy-mode assignment onto such a value is silently ignored. -/
def isPrimitive : Value → Bool
  | .vnum _ => true
  | .vstr _ => true
  | .vbool _ => true
  | _ => false

/-- Splitting a list of characters on the dot character, mirroring the JS
`path.split(".")` with its single-character literal separator.  Always
returns at least one (possibly empty) segment. -/
def splitAux : List Char → List (List Char)
  | [] => [[]]
  | c :: cs =>
      if c = '.' then [] :: splitAux cs
      else
        match splitAux cs with
        | s :: rest => (c :: s) :: rest
        | [] => [[c]]

/-- `path.split(".")`. -/
def splitPath (path : String) : List String :=
  (splitAux path.toList).map fun cs => ⟨cs⟩

/-- One step of the reduce inside getNestedValue:
`current && current[key] !== undefined ? current[key] : undefined`. -/
def stepGet (cur : Option Value) (key : String) : Option Value :=
  match cur with
  | none => none
  | some v => if truthy v then getProp v key else none

/-- getNestedValue: descends through the document one dot-segment at a time,
yielding undefined (`none`) as soon as the current value is falsy or lacks
the key.  Never throws. -/
def getNestedValue (obj : Value) (path : String) : Option Value :=
  (splitPath path).foldl stepGet (some obj)

/-- The final assignment `target[lastKey] = value` of setNestedValue, in
sloppy mode: errors on null, is silently ignored on other primitives,
writes the field on an object; on an array it writes a canonical index
(extending with holes, which read back as null), resizes on `length`
(numeric coercion of non-numbers is not modelled) and otherwise creates a
non-index property that the JSON document cannot represent and the
serialization never sees. -/
def assignProp : Value → String → Value → Except String Value
  | .vnull, _, _ => .error "TypeError"
  | .obj m, key, v => .ok (.obj (setField m key v))
  | .arr l, key, v =>
      if key = "length" then
        match v with
        | .vnum n =>
            if n < 0 then .error "RangeError"
            else .ok (.arr (l.take n.toNat ++ List.replicate (n.toNat - l.length) .vnull))
        | _ => .error "RangeError"
      else
        match canonIdx key with
        | some n =>
            if n < l.length then .ok (.arr (l.set n v))
            else .ok (.arr (l ++ List.replicate (n - l.length) .vnull ++ [v]))
        | none => .ok (.arr l)
  | v, _, _ => .ok v

/-- The reduce inside setNestedValue over the non-terminal segments:
`if (!(key in current)) current[key] = {}; return current[key]`, followed by
the terminal assignment.  The `in` operator throws a TypeError when
`current` is a primitive.  Rebuilding along the traversal models the
in-place mutation performed through the `current[key]` references. -/
def setDescend : Value → List String → String → Value → Except String Value
  | cur, [], lastKey, v => assignProp cur lastKey v
  | cur, key :: ks, lastKey, v =>
      match cur with
      | .obj m =>
          match lookupField m key with
          | some child =>
              match setDescend child ks lastKey v with
              | .error e => .error e
              | .ok c => .ok (.obj (setField m key c))
          | none =>
              match setDescend (.obj []) ks lastKey v with
              | .error e => .error e
              | .ok c => .ok (.obj (setField m key c))
      | .arr l =>
          if key = "length" then
            match setDescend (.vnum l.length) ks lastKey v with
            | .error e => .error e
            | .ok _ => .ok (.arr l)
          else
            match canonIdx key with
            | some n =>
                match l.get? n with
                | some child =>
                    match setDescend child ks lastKey v with
                    | .error e => .error e
                    | .ok c => .ok (.arr (l.set n c))
                | none =>
                    match setDescend (.obj []) ks lastKey v with
                    | .error e => .error e
                    | .ok c =>
                        .ok (.arr (l ++ List.replicate (n - l.length) .vnull
                              ++ [c]))
            | none =>
                match setDescend (.obj []) ks lastKey v with
                | .error e => .error e
                | .ok _ => .ok (.arr l)
      | _ => .error "TypeError"

/-- setNestedValue: splits the path, pops the last segment, descends through
the rest creating empty objects for missing keys, then assigns the value at
the terminal segment.  Throws when the `in` operator or the terminal
assignment meets an unusable intermediate value. -/
def setNestedValue (obj : Value) (path : String) (value : Value) :
    Except String Value :=
  let keys0 := splitPath path
  match keys0.getLast? with
  | none => .ok obj
  | some lastKey => setDescend obj keys0.dropLast lastKey value

/-- Rebuild of the tree after `delete target[lastKey]`, where `target` is
the reference produced by the guarded reduce of deleteNestedValue (the same
traversal as stepGet).  Only the traversed path changes. -/
def deleteAtPath : Value → List String → String → Value
  | cur, [], lastKey => deleteProp cur lastKey
  | cur, key :: ks, lastKey =>
      if truthy cur then
        match getProp cur key with
        | some child => setChild cur key (deleteAtPath child ks lastKey)
        | none => cur
      else cur

/-- One iteration of the pruning forEach.  `pfx` is the segment list
`keys.slice(0, -(index + 1))` computed from the reversed keys; the reduce
`(current, k) => current[k]` has no undefined guard, so reading a property
of undefined or null throws.  When the parent is truthy,
`Object.keys(parent[key])` throws on undefined and null, and the key is
deleted from the parent when the count is zero. -/
def pruneAt : Value → List String → String → Except String Value
  | cur, [], key =>
      if truthy cur then
        match getProp cur key with
        | none => .error "TypeError"
        | some x =>
            match jsKeysCount x with
            | .error e => .error e
            | .ok n => .ok (if n = 0 then deleteProp cur key else cur)
      else .ok cur
  | cur, k :: ks, key =>
      match cur with
      | .vnull => .error "TypeError"
      | _ =>
          match getProp cur k with
          | none =>
              match ks with
              | [] => .ok cur
              | _ :: _ => .error "TypeError"
          | some child =>
              match pruneAt child ks key with
              | .error e => .error e
              | .ok c => .ok (setChild cur k c)

/-- The pruning forEach over the reversed key list, threading the document;
a thrown TypeError aborts the loop, keeping the mutations applied so far. -/
def pruneGo (krev : List String) :
    Value → List (Nat × String) → Except (String × Value) Value
  | cur, [] => .ok cur
  | cur, (idx, key) :: rest =>
      match pruneAt cur (krev.take (krev.length - (idx + 1))) key with
      | .ok cur2 => pruneGo krev cur2 rest
      | .error e => .error (e, cur)

/-- `keys.reverse().forEach((key, index) => ...)` of deleteNestedValue. -/
def pruneLoop (obj : Value) (krev : List String) :
    Except (String × Value) Value :=
  pruneGo krev obj krev.enum

/-- deleteNestedValue: locates the parent of the terminal key with the
guarded reduce, removes the terminal key when present, then, if noBlankData
is set, runs the pruning loop over the reversed non-terminal segments.
Returns (thrown error, resulting document, returned boolean); on a throw
the mutations already applied to the document remain. -/
def deleteNestedValue (noBlank : Bool) (obj : Value) (path : String) :
    Option String × Value × Bool :=
  let keys0 := splitPath path
  let lastKey := keys0.getLast?.getD ""
  let keys := keys0.dropLast
  match keys.foldl stepGet (some obj) with
  | none => (none, obj, false)
  | some target =>
      if truthy target && (getProp target lastKey).isSome then
        let obj1 := deleteAtPath obj keys lastKey
        if noBlank then
          match pruneLoop obj1 keys.reverse with
          | .ok obj2 => (none, obj2, true)
          | .error (e, objPartial) => (some e, objPartial, true)
        else (none, obj1, true)
      else (none, obj, false)

/-- Fuel-indexed structural deep equality in the style of lodash isEqual:
object fields are compared without regard to order, sequences pointwise.
The fuel only needs to exceed the nesting depth of the first argument;
`isEqual` supplies the size of that argument, which always does. -/
def isEqualF : Nat → Value → Value → Bool
  | 0, _, _ => false
  | fuel + 1, a, b =>
      match a, b with
      | .vnull, .vnull => true
      | .vbool x, .vbool y => x == y
      | .vnum x, .vnum y => x == y
      | .vstr x, .vstr y => x == y
      | .arr la, .arr lb =>
          la.length == lb.length &&
            (la.zip lb).all fun p => isEqualF fuel p.1 p.2
      | .obj ma, .obj mb =>
          ma.length == mb.length &&
            ma.all fun kv =>
              match lookupField mb kv.1 with
              | some w => isEqualF fuel kv.2 w
              | none => false
      | _, _ => false

mutual

/-- Size of a JSON value, used as fuel for the deep equality. -/
def vsize : Value → Nat
  | .vnull => 1
  | .vbool _ => 1
  | .vnum _ => 1
  | .vstr _ => 1
  | .arr l => 1 + vsizeList l
  | .obj m => 1 + vsizeFields m

/-- Size of a list of JSON values. -/
def vsizeList : List Value → Nat
  | [] => 0
  | v :: tl => vsize v + vsizeList tl

/-- Size of a field list of a JSON object. -/
def vsizeFields : List (String × Value) → Nat
  | [] => 0
  | (_, v) :: tl => vsize v + vsizeFields tl

end

/-- Lodash deep structural equality, `_.isEqual`. -/
def isEqual (a b : Value) : Bool :=
  isEqualF (vsize a) a b

/-- The element removal `array.splice(priority - 1, 1)` of delByPriority,
with the negative-start clamping Array.prototype.splice performs. -/
def spliceDelete (l : List Value) (priority : Int) : List Value :=
  let len : Int := l.length
  let start : Nat :=
    (if priority - 1 < 0 then max (len + (priority - 1)) 0
     else min (priority - 1) len).toNat
  l.take start ++ l.drop (start + 1)

/-- The indexed assignment `array[priority - 1] = value` of setByPriority:
an index beyond the current length extends the array with holes, which the
serialization reads as null; a negative index creates a non-index property
invisible to the JSON document. -/
def indexAssign (l : List Value) (value : Value) (priority : Int) :
    List Value :=
  if 1 ≤ priority then
    let n := (priority - 1).toNat
    if n < l.length then l.set n value
    else l ++ List.replicate (n - l.length) .vnull ++ [value]
  else l

/-- Contents of a file on disk, abstracted at the JSON.parse boundary:
either bytes that parse to the JSON value `v`, or bytes that JSON.parse
rejects (this includes the empty file). -/
inductive FileData where
  | ok (v : Value)
  | bad

/-- The three persistence artifacts of a configured folder and base
filename; `none` means the file does not exist. -/
structure FS where
  main : Option FileData
  backup : Option FileData
  temp : Option FileData

/-- The store: the in-memory document plus the configuration toggles and
the filesystem it owns.  The readable flag controls serialization
formatting only, which the FileData abstraction quotients away. -/
structure DB where
  data : Value
  noBlankData : Bool
  readable : Bool
  fs : FS

/-- validateData: JSON.parse inside a try, re-thrown as a validation error
when the bytes do not parse. -/
def validateData : FileData → Except String Unit
  | .ok _ => .ok ()
  | .bad => .error "Invalid JSON format"

/-- parseData: JSON.parse of the bytes, with an empty-string fallback that
is only reachable after validateData has already rejected the bytes. -/
def parseData : FileData → Value
  | .ok v => v
  | .bad => .obj []

/-- stringifyData: serializing the in-memory document always produces bytes
that parse back to that document (the pretty-print flag changes formatting
only). -/
def stringifyData (db : DB) : FileData :=
  .ok db.data

/-- createBackup: overwrites the backup file with the serialized document. -/
def createBackup (db : DB) : DB :=
  { db with fs := { db.fs with backup := some (stringifyData db) } }

/-- save, parameterized by the bytes found in the temp file when it is read
back: writes the temp file, re-reads and re-validates it, then atomically
replaces the main file with it and refreshes the backup.  A failed
re-validation propagates, leaving the main file untouched.  `written` is
normally the serialized document; a corrupted write is modelled by letting
it differ. -/
def saveWith (db : DB) (written : FileData) : Option String × DB :=
  let db1 := { db with fs := { db.fs with temp := some written } }
  match validateData written with
  | .error e => (some e, db1)
  | .ok _ =>
      let db2 :=
        { db1 with fs := { db1.fs with main := some written, temp := none } }
      (none, createBackup db2)

/-- save with an uncorrupted temp write. -/
def save (db : DB) : Option String × DB :=
  saveWith db (stringifyData db)

/-- The catch block of loadDatabase: reads and validates the backup if it
exists (a validation failure here propagates out of load), adopting it and
rewriting the main file; otherwise resets to an empty document and saves. -/
def loadCatch (db : DB) : Option String × DB :=
  match db.fs.backup with
  | some f =>
      match validateData f with
      | .error e => (some e, db)
      | .ok _ => save { db with data := parseData f }
  | none => save { db with data := .obj [] }

/-- loadDatabase: if the main file exists, validate and adopt it and refresh
the backup; else if the backup exists, validate and adopt it and save; else
save the current (empty) document.  Any validation failure in the try block
falls into the catch block. -/
def loadDatabase (db : DB) : Option String × DB :=
  match db.fs.main with
  | some f =>
      match validateData f with
      | .ok _ => (none, createBackup { db with data := parseData f })
      | .error _ => loadCatch db
  | none =>
      match db.fs.backup with
      | some f =>
          match validateData f with
          | .ok _ => save { db with data := parseData f }
          | .error _ => loadCatch db
      | none => save db

/-- The constructor: sets the in-memory document to an empty object, then
runs loadDatabase against the configured files. -/
def construct (noBlank readable : Bool) (fs : FS) : Option String × DB :=
  loadDatabase
    { data := .obj [], noBlankData := noBlank, readable := readable, fs := fs }

/-- fetch. -/
def DB.fetch (db : DB) (key : String) : Option Value :=
  getNestedValue db.data key

/-- get, an alias for fetch. -/
def DB.get (db : DB) (key : String) : Option Value :=
  db.fetch key

/-- has: whether getNestedValue yields something other than undefined. -/
def DB.has (db : DB) (key : String) : Bool :=
  (getNestedValue db.data key).isSome

/-- set: mutate the document through setNestedValue, then save.  A throw
from setNestedValue propagates before any visible mutation (the reduce can
only throw before it has created any intermediate object). -/
def DB.set (db : DB) (key : String) (value : Value) : Option String × DB :=
  match setNestedValue db.data key value with
  | .error e => (some e, db)
  | .ok d => save { db with data := d }

/-- delete: mutate through deleteNestedValue, then save and return the
boolean.  A throw from the pruning loop propagates before the save, with
the partial mutations left in memory. -/
def DB.delete (db : DB) (key : String) : Option String × DB × Bool :=
  match deleteNestedValue db.noBlankData db.data key with
  | (some e, d, b) => (some e, { db with data := d }, b)
  | (none, d, b) =>
      match save { db with data := d } with
      | (e, db2) => (e, db2, b)

/-- deleteAll: reset the document to an empty object and save. -/
def DB.deleteAll (db : DB) : Option String × DB :=
  save { db with data := .obj [] }

/-- The shared prologue of the array operations:
`const array = this.get(key) || []` — a falsy stored value (0, false, the
empty string, null) is replaced by a fresh empty array, exactly like an
absent one. -/
def DB.arrayAt (db : DB) (key : String) : Value :=
  match db.get key with
  | some w => if truthy w then w else .arr []
  | none => .arr []

/-- push: appends to the array at the key, storing the result; throws a
type-mismatch error when a truthy non-array value is there. -/
def DB.push (db : DB) (key : String) (value : Value) : Option String × DB :=
  match db.arrayAt key with
  | .arr l => db.set key (.arr (l ++ [value]))
  | _ => (some "Target is not an array", db)

/-- unpush: removes every element deeply equal to the value. -/
def DB.unpush (db : DB) (key : String) (value : Value) : Option String × DB :=
  match db.arrayAt key with
  | .arr l => db.set key (.arr (l.filter fun item => ! isEqual item value))
  | _ => (some "Target is not an array", db)

/-- delByPriority: splices out the element at the 1-based priority. -/
def DB.delByPriority (db : DB) (key : String) (priority : Int) :
    Option String × DB :=
  match db.arrayAt key with
  | .arr l => db.set key (.arr (spliceDelete l priority))
  | _ => (some "Target is not an array", db)

/-- setByPriority: assigns the element at the 1-based priority. -/
def DB.setByPriority (db : DB) (key : String) (value : Value)
    (priority : Int) : Option String × DB :=
  match db.arrayAt key with
  | .arr l => db.set key (.arr (indexAssign l value priority))
  | _ => (some "Target is not an array", db)

/-- Paths along which setNestedValue behaves as pure nested-map insertion:
starting from a map, every non-terminal segment resolves to another map or
to a missing key (the list argument is the path with its last segment
popped). -/
def setSafe : Value → List String → Bool
  | .obj _, [] => true
  | .obj m, k :: ks =>
      match lookupField m k with
      | none => true
      | some child => setSafe child ks
  | _, _ => false

/-- An empty filesystem: none of the three files exists. -/
def fsEmpty : FS := ⟨none, none, none⟩

/-- A store holding the given document, default options, no files yet. -/
def mkDB (d : Value) : DB := ⟨d, false, false, fsEmpty⟩

/-- A fresh store with pruning (noBlankData) enabled. -/
def dbPruneStart : DB := ⟨.obj [], true, false, fsEmpty⟩

/-- A store whose key a holds the scalar 5. -/
def dbA5 : DB := mkDB (.obj [("a", .vnum 5)])

/-- A store whose key a holds null. -/
def dbANull : DB := mkDB (.obj [("a", .vnull)])

/-- A store whose key p holds the falsy scalar 0. -/
def dbP0 : DB := mkDB (.obj [("p", .vnum 0)])

/-- A store whose key p holds the truthy scalar 5. -/
def dbP5 : DB := mkDB (.obj [("p", .vnum 5)])

/-- A store whose key list holds the sequence [10, 20, 30]. -/
def dbList : DB := mkDB (.obj [("list", .arr [.vnum 10, .vnum 20, .vnum 30])])

/-- A store over an empty document. -/
def dbEmpty : DB := mkDB (.obj [])

/-- Both persistence files exist and hold invalid JSON. -/
def fsBothBad : FS := ⟨some .bad, some .bad, none⟩

/-- Invalid main file, backup parsing to the object with x = 1. -/
def fsBackupX1 : FS := ⟨some .bad, some (.ok (.obj [("x", .vnum 1)])), none⟩

/-- Main file parsing to the JSON array [1, 2]. -/
def fsArrMain : FS := ⟨some (.ok (.arr [.vnum 1, .vnum 2])), none, none⟩

/-- Main file parsing to the object with k = 1. -/
def fsMainGood : FS := ⟨some (.ok (.obj [("k", .vnum 1)])), none, none⟩

end LumeDB

namespace LumeDB

/-! Basic lemmas about the association-list operations and the path
splitter, shared by the claim theorems. -/

theorem lookupField_setField_self (m : List (String × Value)) (k : String)
    (v : Value) : lookupField (setField m k v) k = some v := by
  induction m with
  | nil => simp [setField, lookupField]
  | cons hd tl ih =>
      obtain ⟨k', w⟩ := hd
      by_cases h : k' = k
      · subst h
        simp [setField, lookupField]
      · simp [setField, lookupField, h, ih]

theorem setField_self_of_lookup (m : List (String × Value)) (k : String)
    (w : Value) (h : lookupField m k = some w) : setField m k w = m := by
  induction m with
  | nil => simp [lookupField] at h
  | cons hd tl ih =>
      obtain ⟨k', v'⟩ := hd
      by_cases hk : k' = k
      · subst hk
        simp [lookupField] at h
        simp [setField, h]
      · simp [lookupField, hk] at h
        simp [setField, hk, ih h]

theorem splitAux_ne_nil (cs : List Char) : splitAux cs ≠ [] := by
  induction cs with
  | nil => simp [splitAux]
  | cons c cs ih =>
      by_cases h : c = '.'
      · simp [splitAux, h]
      · simp only [splitAux, if_neg h]
        cases hs : splitAux cs with
        | nil => simp
        | cons s rest => simp

theorem splitPath_ne_nil (p : String) : splitPath p ≠ [] := by
  simpa [splitPath] using splitAux_ne_nil p.toList

theorem save_fst (db : DB) : (save db).1 = none := rfl

theorem save_data (db : DB) : (save db).2.data = db.data := rfl

/-- C10: for every document state and every path, has returns true exactly
when get returns a present value, get is the alias of fetch, and fetch is
the pure traversal getNestedValue of the document; none of them mutates the
store. -/
theorem has_iff_fetch_present (db : DB) (key : String) :
    db.has key = (db.get key).isSome ∧ db.get key = db.fetch key ∧
      db.fetch key = getNestedValue db.data key :=
  ⟨rfl, rfl, rfl⟩

/-- C2: when the bytes written to the temp file do not read back as valid
JSON, save propagates the validation error to the caller and the main file
(and the backup file, and the in-memory document) are exactly what they
were before the save was attempted. -/
theorem save_revalidation_failure_preserves_main (db : DB) :
    (saveWith db .bad).1 = some "Invalid JSON format" ∧
      (saveWith db .bad).2.fs.main = db.fs.main ∧
      (saveWith db .bad).2.fs.backup = db.fs.backup ∧
      (saveWith db .bad).2.data = db.data :=
  ⟨rfl, rfl, rfl, rfl⟩

/-- C1 counterexample: when the main file and the backup file both hold
invalid JSON, constructing the store does not fall back to a fresh empty
document: the validation error raised inside the catch block propagates
out of load. -/
theorem load_both_corrupt_fails :
    (construct false false fsBothBad).1 = some "Invalid JSON format" := rfl

/-- C1 amended: load propagates an error exactly when the backup file
exists with invalid JSON while the main file is missing or invalid; in
every other filesystem state load succeeds, with the main-to-backup-to-
empty fallback. -/
theorem load_failure_iff_backup_corrupt (db : DB) :
    (loadDatabase db).1.isSome = true
      ↔ db.fs.backup = some .bad ∧
          (db.fs.main = none ∨ db.fs.main = some .bad) := by
  obtain ⟨d, nb, rd, m, b, t⟩ := db
  rcases m with _ | (v | _) <;> rcases b with _ | (w | _) <;>
    simp [loadDatabase, loadCatch, save, saveWith, validateData,
      stringifyData, createBackup]

/-- C6: with an invalid main file and a backup file parsing to the object
with x = 1, construction succeeds, get of x yields 1, and the main file is
rewritten to the content of the backup document. -/
theorem backup_recovery :
    (construct false false fsBackupX1).1 = none ∧
      ((construct false false fsBackupX1).2).get "x" = some (.vnum 1) ∧
      ((construct false false fsBackupX1).2).fs.main
        = some (.ok (.obj [("x", .vnum 1)])) :=
  ⟨rfl, rfl, rfl⟩

/-- C3: on a fresh store with pruning enabled, set of a.b.c to 1 followed
by delete of a.b.c fails to prune the emptied ancestors: the pruning loop
slices the reversed key list as if it were unreversed, so the document is
left holding a.b as an empty map and has of a still returns true, against
the specified result that has of a be false. -/
theorem prune_bug_depth_three :
    ((dbPruneStart.set "a.b.c" (.vnum 1)).2).data
        = .obj [("a", .obj [("b", .obj [("c", .vnum 1)])])] ∧
      (((dbPruneStart.set "a.b.c" (.vnum 1)).2).delete "a.b.c").1 = none ∧
      ((((dbPruneStart.set "a.b.c" (.vnum 1)).2).delete "a.b.c").2.1).data
        = .obj [("a", .obj [("b", .obj [])])] ∧
      ((((dbPruneStart.set "a.b.c" (.vnum 1)).2).delete "a.b.c").2.1).has "a"
        = true :=
  ⟨rfl, rfl, rfl, rfl⟩

/-- C7 counterexample: a main file holding the valid JSON array [1, 2] is
accepted by load, so after construction the root of the in-memory document
is a Sequence, not a Map. -/
theorem load_array_root_not_map :
    (construct false false fsArrMain).1 = none ∧
      ((construct false false fsArrMain).2).data = .arr [.vnum 1, .vnum 2] ∧
      isMap ((construct false false fsArrMain).2).data = false :=
  ⟨rfl, rfl, rfl⟩

/-- C4 counterexample: with the scalar 5 stored at a, set of a.b to 7 is a
silent no-op (the terminal assignment lands on a primitive), so the
following get of a.b returns absent rather than 7. -/
theorem roundtrip_fails_scalar_intermediate :
    (dbA5.set "a.b" (.vnum 7)).1 = none ∧
      ((dbA5.set "a.b" (.vnum 7)).2).get "a.b" = none :=
  ⟨rfl, rfl⟩

/-- C9 counterexample: with the scalar 5 stored at a, set of a.b to 7 does
not overwrite a with a fresh Map: the document is left exactly as it was,
with a still holding 5 and nothing stored under b. -/
theorem set_scalar_intermediate_noop :
    (dbA5.set "a.b" (.vnum 7)).1 = none ∧
      (dbA5.set "a.b" (.vnum 7)).2.data = .obj [("a", .vnum 5)] :=
  ⟨rfl, rfl⟩

/-- C5 counterexample: with the falsy scalar 0 stored at p, push on p does
not fail with a type-mismatch error: the get-or-empty-array prologue
replaces the falsy value by a fresh empty array, and the push succeeds and
overwrites p with the one-element sequence. -/
theorem push_on_falsy_scalar_succeeds :
    (dbP0.push "p" (.vnum 1)).1 = none ∧
      (dbP0.push "p" (.vnum 1)).2.data = .obj [("p", .arr [.vnum 1])] :=
  ⟨rfl, rfl⟩

theorem setSafe_objEmpty (ks : List String) :
    setSafe (.obj []) ks = true := by
  cases ks <;> simp [setSafe, lookupField]

theorem setDescend_get (ks : List String) :
    ∀ (cur : Value) (lastKey : String) (v : Value), setSafe cur ks = true →
      ∃ d, setDescend cur ks lastKey v = .ok d ∧
        (ks ++ [lastKey]).foldl stepGet (some d) = some v := by
  induction ks with
  | nil =>
      intro cur lastKey v hsafe
      cases cur <;> simp [setSafe] at hsafe
      case obj m =>
        refine ⟨.obj (setField m lastKey v), rfl, ?_⟩
        simp [stepGet, truthy, getProp, lookupField_setField_self]
  | cons k ks ih =>
      intro cur lastKey v hsafe
      cases cur <;> simp [setSafe] at hsafe
      case obj m =>
        cases hl : lookupField m k with
        | none =>
            obtain ⟨d, hd, hg⟩ := ih (.obj []) lastKey v (setSafe_objEmpty ks)
            refine ⟨.obj (setField m k d), ?_, ?_⟩
            · simp [setDescend, hl, hd]
            · rw [List.cons_append, List.foldl_cons]
              have h1 : stepGet (some (.obj (setField m k d))) k = some d := by
                simp [stepGet, truthy, getProp, lookupField_setField_self]
              rw [h1, hg]
        | some child =>
            rw [hl] at hsafe
            obtain ⟨d, hd, hg⟩ := ih child lastKey v hsafe
            refine ⟨.obj (setField m k d), ?_, ?_⟩
            · simp [setDescend, hl, hd]
            · rw [List.cons_append, List.foldl_cons]
              have h1 : stepGet (some (.obj (setField m k d))) k = some d := by
                simp [stepGet, truthy, getProp, lookupField_setField_self]
              rw [h1, hg]

/-- C4 amended: for every store, path and value, provided each non-terminal
segment of the path resolves from the root map to a map or to a missing
key, set succeeds and the following get returns exactly the value that was
set. -/
theorem set_get_roundtrip (db : DB) (P : String) (V : Value)
    (h : setSafe db.data ((splitPath P).dropLast) = true) :
    (db.set P V).1 = none ∧ ((db.set P V).2).get P = some V := by
  have hne : splitPath P ≠ [] := splitPath_ne_nil P
  obtain ⟨d, hd, hg⟩ :=
    setDescend_get ((splitPath P).dropLast) db.data
      ((splitPath P).getLast hne) V h
  have hlast : (splitPath P).getLast? = some ((splitPath P).getLast hne) :=
    List.getLast?_eq_getLast_of_ne_nil hne
  have hset : setNestedValue db.data P V = .ok d := by
    simp [setNestedValue, hlast, hd]
  have hdbset : db.set P V = save { db with data := d } := by
    simp [DB.set, hset]
  rw [List.dropLast_append_getLast hne] at hg
  constructor
  · rw [hdbset, save_fst]
  · rw [hdbset]
    show getNestedValue (save { db with data := d }).2.data P = some V
    rw [save_data]
    exact hg

/-- C4 amended, witness: on the empty store, set of a.b to 3 succeeds and
get of a.b returns 3. -/
theorem set_get_roundtrip_witness :
    (dbEmpty.set "a.b" (.vnum 3)).1 = none ∧
      ((dbEmpty.set "a.b" (.vnum 3)).2).get "a.b" = some (.vnum 3) :=
  set_get_roundtrip dbEmpty "a.b" (.vnum 3) rfl

theorem arrayAt_eq_of_truthy (db : DB) (key : String) (w : Value)
    (hget : db.get key = some w) (ht : truthy w = true) :
    db.arrayAt key = w := by
  simp [DB.arrayAt, hget, ht]

/-- C5 amended: for every truthy value stored at a path that is not a
Sequence, each of the four array operations fails with the type-mismatch
error and returns the store unmodified.  (Falsy stored values are instead
replaced by a fresh empty Sequence, per the counterexample.) -/
theorem array_ops_reject_truthy_nonsequence (db : DB) (key : String)
    (v : Value) (n : Int) (w : Value) (hget : db.get key = some w)
    (ht : truthy w = true) (ha : isArray w = false) :
    db.push key v = (some "Target is not an array", db) ∧
      db.unpush key v = (some "Target is not an array", db) ∧
      db.setByPriority key v n = (some "Target is not an array", db) ∧
      db.delByPriority key n = (some "Target is not an array", db) := by
  have harr : db.arrayAt key = w := arrayAt_eq_of_truthy db key w hget ht
  cases w <;>
    simp_all [DB.push, DB.unpush, DB.setByPriority, DB.delByPriority,
      isArray]

/-- C5 amended, witness: with the truthy scalar 5 stored at p, the four
array operations all fail with the type-mismatch error and leave the store
unchanged. -/
theorem array_ops_reject_truthy_nonsequence_witness :
    dbP5.push "p" (.vnum 1) = (some "Target is not an array", dbP5) ∧
      dbP5.unpush "p" (.vnum 1) = (some "Target is not an array", dbP5) ∧
      dbP5.setByPriority "p" (.vnum 1) 1
        = (some "Target is not an array", dbP5) ∧
      dbP5.delByPriority "p" 1 = (some "Target is not an array", dbP5) :=
  array_ops_reject_truthy_nonsequence dbP5 "p" (.vnum 1) 1 (.vnum 5)
    rfl rfl rfl

/-- C9 amended: when a holds a non-Map value, set of a.b does not replace a
with a fresh Map: for a number, string or boolean the write is silently
ignored and the document is unchanged with no error; for null a TypeError
propagates and the store is returned unchanged. -/
theorem set_through_nonmap (db : DB) (m : List (String × Value))
    (w v : Value) (hd : db.data = .obj m)
    (hw : lookupField m "a" = some w) :
    (isPrimitive w = true →
      (db.set "a.b" v).1 = none ∧ (db.set "a.b" v).2.data = db.data) ∧
      (w = .vnull → db.set "a.b" v = (some "TypeError", db)) := by
  constructor
  · intro hp
    have hassign : assignProp w "b" v = .ok w := by
      cases w <;> simp [isPrimitive] at hp <;> rfl
    have hstep : setDescend (Value.obj m) ["a"] "b" v = .ok (.obj m) := by
      simp only [setDescend, hw, hassign, setField_self_of_lookup m "a" w hw]
    have hset : setNestedValue (Value.obj m) "a.b" v = .ok (.obj m) := hstep
    constructor <;> simp [DB.set, hd, hset, save_fst, save_data]
  · intro hnull
    subst hnull
    have hstep : setDescend (Value.obj m) ["a"] "b" v = .error "TypeError" := by
      simp only [setDescend, hw]
      rfl
    have hset : setNestedValue (Value.obj m) "a.b" v
        = .error "TypeError" := hstep
    have hdb : db = { db with data := Value.obj m } := by
      cases db
      simp_all
    rw [hdb]
    simp [DB.set, hset]

/-- C9 amended, witness: with 5 at a, set of a.b returns no error and
leaves the document unchanged; with null at a, set of a.b returns the
TypeError and the store unchanged. -/
theorem set_through_nonmap_witness :
    ((dbA5.set "a.b" (.vnum 9)).1 = none ∧
        (dbA5.set "a.b" (.vnum 9)).2.data = dbA5.data) ∧
      dbANull.set "a.b" (.vnum 9) = (some "TypeError", dbANull) :=
  ⟨(set_through_nonmap dbA5 [("a", .vnum 5)] (.vnum 5) (.vnum 9)
      rfl rfl).1 rfl,
   (set_through_nonmap dbANull [("a", .vnull)] .vnull (.vnum 9)
      rfl rfl).2 rfl⟩

/-- C8 amended: the element removal of delByPriority removes exactly the
element at 1-based position n when n is within [1, length]; is a no-op
when n exceeds the length; and for n at most 0 applies splice's
negative-start clamping, removing the element at 0-based position
max(length + n - 1, 0) (a no-op only on an empty sequence). -/
theorem spliceDelete_spec (l : List Value) (n : Int) :
    (1 ≤ n → n ≤ l.length → spliceDelete l n = l.eraseIdx (n - 1).toNat) ∧
      ((l.length : Int) < n → spliceDelete l n = l) ∧
      (n ≤ 0 →
        spliceDelete l n = l.eraseIdx ((l.length : Int) + n - 1).toNat) := by
  refine ⟨fun h1 h2 => ?_, fun h => ?_, fun h => ?_⟩
  · simp only [spliceDelete]
    rw [if_neg (by omega), min_eq_left (by omega),
      List.eraseIdx_eq_take_drop_succ]
  · simp only [spliceDelete]
    rw [if_neg (by omega), min_eq_right (by omega)]
    have hs : ((l.length : Int)).toNat = l.length := by omega
    rw [hs, List.take_length, List.drop_eq_nil_of_le (by omega),
      List.append_nil]
  · simp only [spliceDelete]
    rw [if_pos (by omega), List.eraseIdx_eq_take_drop_succ]
    have hs : (max ((l.length : Int) + (n - 1)) 0).toNat
        = ((l.length : Int) + n - 1).toNat := by omega
    rw [hs]

/-- C8 amended, witness: on [1, 2, 3], priority 2 removes the second
element, priority 9 is a no-op, and priority 0 removes the last element. -/
theorem spliceDelete_spec_witness :
    spliceDelete [.vnum 1, .vnum 2, .vnum 3] 2 = [.vnum 1, .vnum 3] ∧
      spliceDelete [.vnum 1, .vnum 2, .vnum 3] 9
        = [.vnum 1, .vnum 2, .vnum 3] ∧
      spliceDelete [.vnum 1, .vnum 2, .vnum 3] 0 = [.vnum 1, .vnum 2] :=
  ⟨((spliceDelete_spec [.vnum 1, .vnum 2, .vnum 3] 2).1 (by decide)
      (by decide)).trans rfl,
   (spliceDelete_spec [.vnum 1, .vnum 2, .vnum 3] 9).2.1 (by decide),
   ((spliceDelete_spec [.vnum 1, .vnum 2, .vnum 3] 0).2.2
      (by decide)).trans rfl⟩

theorem setDescend_isMap (ks : List String) (m : List (String × Value))
    (lastKey : String) (v d : Value)
    (h : setDescend (.obj m) ks lastKey v = .ok d) : isMap d = true := by
  cases ks with
  | nil =>
      simp [setDescend, assignProp] at h
      rw [← h]
      rfl
  | cons k ks' =>
      cases hl : lookupField m k with
      | none =>
          simp only [setDescend, hl] at h
          cases hrec : setDescend (.obj []) ks' lastKey v with
          | error e => rw [hrec] at h; simp at h
          | ok c =>
              rw [hrec] at h
              simp at h
              rw [← h]
              rfl
      | some child =>
          simp only [setDescend, hl] at h
          cases hrec : setDescend child ks' lastKey v with
          | error e => rw [hrec] at h; simp at h
          | ok c =>
              rw [hrec] at h
              simp at h
              rw [← h]
              rfl

theorem setNestedValue_isMap (m : List (String × Value)) (path : String)
    (v d : Value) (h : setNestedValue (.obj m) path v = .ok d) :
    isMap d = true := by
  simp only [setNestedValue] at h
  cases hg : (splitPath path).getLast? with
  | none =>
      rw [hg] at h
      simp at h
      rw [← h]
      rfl
  | some lastKey =>
      rw [hg] at h
      exact setDescend_isMap _ m lastKey v d h

theorem set_isMap (db : DB) (key : String) (v : Value)
    (hm : isMap db.data = true) : isMap ((db.set key v).2).data = true := by
  cases hdata : db.data <;> rw [hdata] at hm <;> simp [isMap] at hm
  case obj m =>
    cases hset : setNestedValue (.obj m) key v with
    | error e => simp [DB.set, hdata, hset, isMap]
    | ok d =>
        simp [DB.set, hdata, hset, save_data]
        exact setNestedValue_isMap m key v d hset

theorem deleteAtPath_isMap (ks : List String) (m : List (String × Value))
    (lastKey : String) :
    isMap (deleteAtPath (.obj m) ks lastKey) = true := by
  cases ks with
  | nil => rfl
  | cons k ks' =>
      simp only [deleteAtPath, truthy, if_true]
      cases hgp : getProp (.obj m) k <;> simp [setChild, isMap]

theorem pruneAt_isMap (pfx : List String) (m : List (String × Value))
    (key : String) (c : Value) (h : pruneAt (.obj m) pfx key = .ok c) :
    isMap c = true := by
  cases pfx with
  | nil =>
      cases hgp : getProp (.obj m) key with
      | none => simp [pruneAt, truthy, hgp] at h
      | some x =>
          simp only [pruneAt, truthy, if_true, hgp] at h
          cases hkc : jsKeysCount x with
          | error e => rw [hkc] at h; simp at h
          | ok n =>
              rw [hkc] at h
              simp at h
              rw [← h]
              by_cases hn : n = 0 <;> simp [hn, deleteProp, isMap]
  | cons k ks =>
      cases hgp : getProp (.obj m) k with
      | none =>
          simp only [pruneAt, hgp] at h
          cases ks with
          | nil => simp at h; rw [← h]; rfl
          | cons k' ks' => simp at h
      | some child =>
          simp only [pruneAt, hgp] at h
          cases hrec : pruneAt child ks key with
          | error e => rw [hrec] at h; simp at h
          | ok c' =>
              rw [hrec] at h
              simp at h
              rw [← h]
              rfl

theorem pruneGo_isMap (krev : List String) (li : List (Nat × String)) :
    ∀ cur, isMap cur = true →
      (∀ c, pruneGo krev cur li = .ok c → isMap c = true) ∧
        (∀ e c, pruneGo krev cur li = .error (e, c) → isMap c = true) := by
  induction li with
  | nil =>
      intro cur hm
      constructor
      · intro c hc
        simp [pruneGo] at hc
        rw [← hc]
        exact hm
      · intro e c hc
        simp [pruneGo] at hc
  | cons hd rest ih =>
      intro cur hm
      obtain ⟨idx, key⟩ := hd
      cases hcur : cur <;> rw [hcur] at hm <;> simp [isMap] at hm
      case obj m =>
        constructor
        · intro c hc
          simp only [pruneGo] at hc
          cases hp : pruneAt (.obj m) (krev.take (krev.length - (idx + 1)))
              key with
          | error e => rw [hp] at hc; simp at hc
          | ok cur2 =>
              rw [hp] at hc
              exact (ih cur2 (pruneAt_isMap _ m key cur2 hp)).1 c hc
        · intro e c hc
          simp only [pruneGo] at hc
          cases hp : pruneAt (.obj m) (krev.take (krev.length - (idx + 1)))
              key with
          | error e2 =>
              rw [hp] at hc
              simp at hc
              rw [← hc.2]
              rfl
          | ok cur2 =>
              rw [hp] at hc
              exact (ih cur2 (pruneAt_isMap _ m key cur2 hp)).2 e c hc

theorem pruneLoop_isMap (obj1 : Value) (krev : List String)
    (h : isMap obj1 = true) :
    (∀ c, pruneLoop obj1 krev = .ok c → isMap c = true) ∧
      (∀ e c, pruneLoop obj1 krev = .error (e, c) → isMap c = true) :=
  pruneGo_isMap krev krev.enum obj1 h

theorem deleteNestedValue_isMap (nb : Bool) (m : List (String × Value))
    (path : String) :
    isMap ((deleteNestedValue nb (.obj m) path).2.1) = true := by
  have hobj1 : isMap (deleteAtPath (.obj m) (splitPath path).dropLast
      ((splitPath path).getLast?.getD "")) = true :=
    deleteAtPath_isMap _ m _
  simp only [deleteNestedValue]
  split
  · rfl
  · split
    · split
      · split
        · next obj2 hp =>
            exact (pruneLoop_isMap _ _ hobj1).1 obj2 hp
        · next e objP hp =>
            exact (pruneLoop_isMap _ _ hobj1).2 e objP hp
      · exact hobj1
    · rfl

theorem delete_isMap (db : DB) (key : String)
    (hm : isMap db.data = true) :
    isMap (((db.delete key).2.1)).data = true := by
  cases hdata : db.data <;> rw [hdata] at hm <;> simp [isMap] at hm
  case obj m =>
    have hdel := deleteNestedValue_isMap db.noBlankData m key
    cases hres : deleteNestedValue db.noBlankData (.obj m) key with
    | mk e rest =>
        obtain ⟨d, b⟩ := rest
        rw [hres] at hdel
        cases e <;> simp [DB.delete, hdata, hres, save_data] <;> exact hdel

theorem push_isMap (db : DB) (key : String) (v : Value)
    (hm : isMap db.data = true) : isMap ((db.push key v).2).data = true := by
  cases harr : db.arrayAt key
  case arr l =>
      simp only [DB.push, harr]
      exact set_isMap db key _ hm
  all_goals simp [DB.push, harr, hm]

theorem unpush_isMap (db : DB) (key : String) (v : Value)
    (hm : isMap db.data = true) :
    isMap ((db.unpush key v).2).data = true := by
  cases harr : db.arrayAt key
  case arr l =>
      simp only [DB.unpush, harr]
      exact set_isMap db key _ hm
  all_goals simp [DB.unpush, harr, hm]

theorem setByPriority_isMap (db : DB) (key : String) (v : Value) (n : Int)
    (hm : isMap db.data = true) :
    isMap ((db.setByPriority key v n).2).data = true := by
  cases harr : db.arrayAt key
  case arr l =>
      simp only [DB.setByPriority, harr]
      exact set_isMap db key _ hm
  all_goals simp [DB.setByPriority, harr, hm]

theorem delByPriority_isMap (db : DB) (key : String) (n : Int)
    (hm : isMap db.data = true) :
    isMap ((db.delByPriority key n).2).data = true := by
  cases harr : db.arrayAt key
  case arr l =>
      simp only [DB.delByPriority, harr]
      exact set_isMap db key _ hm
  all_goals simp [DB.delByPriority, harr, hm]

theorem loadDatabase_isMap (db : DB) (hd : isMap db.data = true)
    (hmain : ∀ v, db.fs.main = some (.ok v) → isMap v = true)
    (hbackup : ∀ v, db.fs.backup = some (.ok v) → isMap v = true) :
    isMap ((loadDatabase db).2).data = true := by
  obtain ⟨d, nb, rd, m, b, t⟩ := db
  rcases m with _ | (v | _) <;> rcases b with _ | (w | _) <;>
    simp_all [loadDatabase, loadCatch, save, saveWith, validateData,
      stringifyData, createBackup, parseData, isMap]

/-- C7 amended: the root of the in-memory document is a Map after
construction whenever every file that load may adopt parses to a JSON
object, and every operation preserves Map-rootness. -/
theorem root_map_invariant :
    (∀ (nb rd : Bool) (fs : FS),
        (∀ v, fs.main = some (.ok v) → isMap v = true) →
        (∀ v, fs.backup = some (.ok v) → isMap v = true) →
        isMap ((construct nb rd fs).2).data = true) ∧
      (∀ (db : DB) (key : String) (v : Value) (n : Int),
        isMap db.data = true →
        isMap ((db.set key v).2).data = true ∧
          isMap ((db.delete key).2.1).data = true ∧
          isMap (db.deleteAll.2).data = true ∧
          isMap ((db.push key v).2).data = true ∧
          isMap ((db.unpush key v).2).data = true ∧
          isMap ((db.setByPriority key v n).2).data = true ∧
          isMap ((db.delByPriority key n).2).data = true) := by
  constructor
  · intro nb rd fs hmain hbackup
    exact loadDatabase_isMap _ rfl hmain hbackup
  · intro db key v n hm
    exact ⟨set_isMap db key v hm, delete_isMap db key hm,
      (by simp [DB.deleteAll, save_data, isMap]),
      push_isMap db key v hm, unpush_isMap db key v hm,
      setByPriority_isMap db key v n hm, delByPriority_isMap db key n hm⟩

/-- C7 amended, witness: constructing over a main file parsing to an
object yields a Map root, and a set on a Map-rooted store keeps the root a
Map. -/
theorem root_map_invariant_witness :
    isMap ((construct false false fsMainGood).2).data = true ∧
      isMap ((dbEmpty.set "k" (.vnum 2)).2).data = true :=
  ⟨root_map_invariant.1 false false fsMainGood
      (fun v h => by
        simp only [fsMainGood] at h
        injection h with h1
        injection h1 with h2
        rw [← h2]
        rfl)
      (fun v h => by simp [fsMainGood] at h),
   (root_map_invariant.2 dbEmpty "k" (.vnum 2) 0 rfl).1⟩

/-- C8 counterexample: delByPriority with priority 0 on the sequence
[10, 20, 30] is not a no-op: splice receives the start index -1, which
counts from the end, so the last element is removed. -/
theorem delByPriority_zero_removes_last :
    (dbList.delByPriority "list" 0).1 = none ∧
      (dbList.delByPriority "list" 0).2.data
        = .obj [("list", .arr [.vnum 10, .vnum 20])] :=
  ⟨rfl, rfl⟩

end LumeDB
